import Mathlib

/-!
Shallow embedding of the `memfs` in-memory filesystem (package `memfs`,
files `file.go`, the path-resolution file, and the file-info file).

A Go byte slice is modelled as `Buf`: `data` is the full backing array
(so `data.length` is the slice capacity), `len` is the slice length, and
`nilb` records whether the slice is the `nil` slice (Go distinguishes a
nil slice from a non-nil empty slice, and `File.grow` branches on it).
Go `copy` truncates to the shorter of the two slices; slicing expressions
such as `buf[off:]` panic when `off < 0` or `off > len(buf)`, and the
embedding returns `none` (an `Option` failure) exactly on those panics.
Machine integers are modelled as `Int`/`Nat`; none of the modelled code
paths perform wrapping arithmetic.
-/

namespace Memfs

abbrev Byte := UInt8

/-- A Go byte slice: backing array (`data`, whose length is the capacity),
slice length `len`, and whether the slice is the nil slice. -/
structure Buf where
  data : List Byte
  len : Nat
  nilb : Bool
deriving DecidableEq

/-- Capacity of the slice: total allocated storage. -/
def Buf.cap (b : Buf) : Nat := b.data.length

/-- The visible bytes of the slice, `buf[0:len]`. -/
def Buf.content (b : Buf) : List Byte := b.data.take b.len

/-- Well-formedness of a slice: the length never exceeds the capacity,
and the nil slice is empty with zero capacity. -/
def Buf.Wf (b : Buf) : Prop :=
  b.len ≤ b.cap ∧ (b.nilb = true → b.data = [] ∧ b.len = 0)

/-- The Go nil slice (used by `NewDirectory` and the zero value `File`). -/
def nilBuf : Buf := ⟨[], 0, true⟩

/-- `smallBufferSize` from file.go: initial allocation minimal capacity. -/
def smallBufferSize : Nat := 64

/-- `bytes.MinRead` (Go standard library): 512. -/
def minRead : Nat := 512

/-- `os.O_APPEND` flag bit (value on Linux; only its being nonzero matters). -/
def oAppend : Nat := 1024

/-- `fs.ModeDir` = 1 <<< 31. -/
def modeDir : Nat := 2147483648

/-- `fs.ModeSymlink` = 1 <<< 27. -/
def modeSymlink : Nat := 134217728

/-- `fs.ModeDevice` = 1 <<< 26. -/
def modeDevice : Nat := 67108864

/-- `fs.ModeNamedPipe` = 1 <<< 25. -/
def modeNamedPipe : Nat := 33554432

/-- `fs.ModeSocket` = 1 <<< 24. -/
def modeSocket : Nat := 16777216

/-- `fs.ModeCharDevice` = 1 <<< 21. -/
def modeCharDevice : Nat := 2097152

/-- `fs.ModeIrregular` = 1 <<< 19. -/
def modeIrregular : Nat := 524288

/-- `fs.ModeType`: the union of all type bits. -/
def modeType : Nat :=
  modeDir + modeSymlink + modeDevice + modeNamedPipe + modeSocket +
    modeCharDevice + modeIrregular

/-- The Go error values that the modelled code produces. -/
inductive ErrKind where
  | notExist      -- fs.ErrNotExist
  | invalidArg    -- fs.ErrInvalid
  | exist         -- fs.ErrExist
  | hasParent     -- ErrHasParent
  | eisdir        -- syscall.EISDIR
  | enotdir       -- syscall.ENOTDIR
  | einval        -- syscall.EINVAL
  | eofK          -- io.EOF
  | writeAtAppend -- errWriteAtInAppendMode
deriving DecidableEq

/-- An error as returned by the Go code: either an `fs.PathError` with an
operation tag and a path, or a bare error value. -/
inductive GoErr where
  | pathe (op : String) (path : String) (kind : ErrKind)
  | simple (kind : ErrKind)
deriving DecidableEq

/-- The non-recursive fields of the Go `File` struct: offset, buffer, flags,
and the `FileInfo` metadata (`name`, `size`, `mode`), plus the parent link
and the `ReadDir` cursor.  The Go parent field is a pointer used only for
`parent != nil` tests and for computing `path()`; it is modelled as the
parent directory's full path at attachment time (names never change and a
parent link is set at most once, so this is faithful). -/
structure Meta where
  off : Int
  buf : Buf
  flag : Nat
  name : String
  size : Int
  mode : Nat
  parent : Option String
  cursor : Nat
deriving DecidableEq

/-- The Go `File` struct; `entries` is the directory's name-to-child map,
modelled as an association list in insertion order (the Go map is
unordered and `ReadDir` sorts the keys, so insertion order is never
observable through the modelled operations). -/
inductive File where
  | mk (meta : Meta) (entries : List (String × File))

def File.meta : File → Meta
  | .mk m _ => m

def File.entries : File → List (String × File)
  | .mk _ es => es

def File.withMeta (f : File) (m : Meta) : File := .mk m f.entries

def File.withEntries (f : File) (es : List (String × File)) : File := .mk f.meta es

def File.off (f : File) : Int := f.meta.off

def File.buf (f : File) : Buf := f.meta.buf

def File.bufLen (f : File) : Nat := f.meta.buf.len

def File.bufCap (f : File) : Nat := f.meta.buf.cap

def File.bufData (f : File) : List Byte := f.meta.buf.data

/-- The visible file content, `buf[0:len]`. -/
def File.content (f : File) : List Byte := f.meta.buf.content

def File.setOff (f : File) (o : Int) : File :=
  f.withMeta { f.meta with off := o }

def File.setBuf (f : File) (b : Buf) : File :=
  f.withMeta { f.meta with buf := b }

/-- `fil.buf = fil.buf[:l]`: reslice, keeping data and nil-ness. -/
def File.setBufLen (f : File) (l : Nat) : File :=
  f.setBuf { f.buf with len := l }

def File.cursor (f : File) : Nat := f.meta.cursor

def File.setParent (f : File) (p : Option String) : File :=
  f.withMeta { f.meta with parent := p }

def File.setCursor (f : File) (c : Nat) : File :=
  f.withMeta { f.meta with cursor := c }

/-- `File.IsDir`: `info.mode & fs.ModeDir != 0`. -/
def File.isDir (f : File) : Bool := f.meta.mode &&& modeDir != 0

/-- `fil.flag & os.O_APPEND != 0`. -/
def File.appendMode (f : File) : Bool := f.meta.flag &&& oAppend != 0

/-- `fi.Mode().Type()` = `mode & fs.ModeType`. -/
def File.typeBits (f : File) : Nat := f.meta.mode &&& modeType

/-- `filepath.Join` restricted to the shapes produced here: joining with an
empty left component returns the right component. -/
def joinPath (a b : String) : String := if a = "" then b else a ++ "/" ++ b

/-- `File.path`: the full path of the instance.  In Go this walks the parent
pointers; the parent's path is stored directly (see `Meta.parent`). -/
def File.path (f : File) : String :=
  match f.meta.parent with
  | none => f.meta.name
  | some pp => if pp = "" then f.meta.name else pp ++ "/" ++ f.meta.name

/-!
### Buffer operations (file.go)
-/

/-- `File.grow` from file.go.  `tryGrowByReslice` is inlined as the first two
branches; the third branch is the nil-buffer small allocation
(`make([]byte, n, smallBufferSize)`), and the last reallocates
`cap*2 + n` bytes (`makeSlice`) and copies the visible bytes over.
Go's `copy(tmp, fil.buf)` copies `min(len(tmp), len(fil.buf))` bytes. -/
def File.grow (f : File) (n : Nat) : File :=
  if (n : Int) ≤ (f.bufLen : Int) - f.off then f
  else if (n : Int) ≤ (f.bufCap : Int) - f.off then
    f.setBufLen (f.off + (n : Int)).toNat
  else if f.buf.nilb && n ≤ smallBufferSize then
    f.setBuf ⟨List.replicate smallBufferSize 0, n, false⟩
  else
    let tmpLen := 2 * f.bufCap + n
    let k := min tmpLen f.bufLen
    f.setBuf ⟨(f.bufData.take f.bufLen).take k ++
                List.replicate (tmpLen - k) 0, tmpLen, false⟩

/-- `File.write` from file.go (the unexported method): in append mode the
offset is first forced to the end of the content; then the buffer is grown,
`copy(fil.buf[fil.off:], p)` copies `min(len(buf)-off, len(p))` bytes, the
offset advances by the bytes copied, and the length is restored to
`max` of the old length and the new offset.  The slice expression
`fil.buf[fil.off:]` panics (modelled as `none`) when the offset is negative
or beyond the buffer length after growing. -/
def File.writeInternal (f : File) (p : List Byte) : Option (File × Nat) :=
  let f := if f.appendMode then f.setOff (f.bufLen : Int) else f
  let l := f.bufLen
  let f := f.grow p.length
  if f.off < 0 ∨ f.off > (f.bufLen : Int) then none
  else
    let off := f.off.toNat
    let n := min (f.bufLen - off) p.length
    let data := f.bufData.take off ++ p.take n ++ f.bufData.drop (off + n)
    some (f.setBuf ⟨data, max l (off + n), f.buf.nilb⟩ |>.setOff ((off + n : Nat) : Int), n)

/-- `File.Write`: rejects directories with an is-a-directory `fs.PathError`,
otherwise delegates to `write`. -/
def File.Write (f : File) (p : List Byte) : Option (File × Except GoErr Nat) :=
  if f.isDir then some (f, .error (.pathe "write" f.path .eisdir))
  else
    match f.writeInternal p with
    | none => none
    | some (f', n) => some (f', .ok n)

/-- `File.WriteByte`: single-byte write. -/
def File.WriteByte (f : File) (b : Byte) : Option (File × Option GoErr) :=
  if f.isDir then some (f, some (.pathe "write" f.path .eisdir))
  else
    match f.writeInternal [b] with
    | none => none
    | some (f', _) => some (f', none)

/-- `File.WriteAt` from file.go: rejects directories and append mode; when
`off + len(p)` exceeds the capacity it sets the offset to the capacity (so
`tryGrowByReslice` fails), grows by `off + len(p) - len(buf)`, and reslices
the buffer to `off + len(p)`; then writes at `off` and restores the
previous offset.  The reslice panics (`none`) if `off + len(p)` is negative
or exceeds the new capacity. -/
def File.WriteAt (f : File) (p : List Byte) (off : Int) :
    Option (File × Except GoErr Nat) :=
  if f.isDir then some (f, .error (.pathe "write" f.path .eisdir))
  else if f.appendMode then some (f, .error (.simple .writeAtAppend))
  else
    let prev := f.off
    let c := f.bufCap
    let pl := p.length
    let f1? : Option File :=
      if off + (pl : Int) > (c : Int) then
        let fa := (f.setOff (c : Int)).grow (off + (pl : Int) - (f.bufLen : Int)).toNat
        if off + (pl : Int) < 0 ∨ off + (pl : Int) > (fa.bufCap : Int) then none
        else some (fa.setBufLen (off + (pl : Int)).toNat)
      else some f
    match f1? with
    | none => none
    | some f1 =>
      match (f1.setOff off).writeInternal p with
      | none => none
      | some (f2, n) => some (f2.setOff prev, .ok n)

/-- `File.Read` from file.go: rejects directories; signals `io.EOF` when the
destination is non-empty and the offset is at or beyond the length;
otherwise copies `min(len(buf)-off, m)` bytes from the offset and advances
it.  `m` is the length of the destination slice, and the bytes read are
returned as a list.  `fil.buf[fil.off:]` panics (`none`) on a negative
offset (or an offset beyond the length with an empty destination). -/
def File.Read (f : File) (m : Nat) : Option (File × Except GoErr (List Byte)) :=
  if f.isDir then some (f, .error (.pathe "read" f.path .eisdir))
  else if m > 0 ∧ f.off ≥ (f.bufLen : Int) then some (f, .error (.simple .eofK))
  else if f.off < 0 ∨ f.off > (f.bufLen : Int) then none
  else
    let off := f.off.toNat
    let n := min (f.bufLen - off) m
    some (f.setOff ((off + n : Nat) : Int), .ok ((f.content.drop off).take n))

/-- `File.Seek` from file.go: whence 0 is from the start, 1 from the current
offset, 2 from the end; any other whence leaves the computed offset at its
zero value.  A negative resulting offset is rejected with `EINVAL`;
otherwise the offset is set and returned. -/
def File.Seek (f : File) (offset : Int) (whence : Int) :
    File × Except GoErr Int :=
  if f.isDir then (f, .error (.pathe "seek" f.path .eisdir))
  else
    let off : Int :=
      if whence = 0 then offset
      else if whence = 1 then f.off + offset
      else if whence = 2 then (f.bufLen : Int) + offset
      else 0
    if off < 0 then (f, .error (.pathe "seek" f.path .einval))
    else (f.setOff off, .ok off)

/-- `File.Truncate` from file.go.  The five-way switch in source order:
size equal to the length is a no-op; size equal to the capacity or strictly
between length and capacity reslices; size beyond the capacity grows (with
the offset parked at the capacity so `tryGrowByReslice` fails) and
reslices up (panicking, `none`, if the reslice exceeds the new capacity);
otherwise the discarded region `buf[size:len]` is zeroed before the
reslice down.  The previous offset is restored at the end. -/
def File.Truncate (f : File) (size : Int) : Option (File × Option GoErr) :=
  if f.isDir then some (f, some (.pathe "truncate" f.path .eisdir))
  else if size < 0 then some (f, some (.pathe "truncate" f.path .einval))
  else
    let prev := f.off
    let l := f.bufLen
    let c := f.bufCap
    let f'? : Option File :=
      if size = (l : Int) then some f
      else if size = (c : Int) then some (f.setBufLen size.toNat)
      else if size > (l : Int) ∧ size < (c : Int) then some (f.setBufLen size.toNat)
      else if size > (c : Int) then
        let fa := (f.setOff (c : Int)).grow (size - (l : Int)).toNat
        if size > (fa.bufCap : Int) then none else some (fa.setBufLen size.toNat)
      else
        let s := size.toNat
        some (f.setBuf ⟨f.bufData.take s ++
          List.replicate (min f.bufLen f.bufData.length - s) 0 ++
          f.bufData.drop (min f.bufLen f.bufData.length), s, f.buf.nilb⟩)
    match f'? with
    | none => none
    | some f' => some (f'.setOff prev, none)

/-- `File.Grow` from file.go (the exported method): panics (`none`) on a
negative count, is a no-op on directories and when capacity suffices,
otherwise allocates exactly `len + n` and copies, keeping the length. -/
def File.Grow (f : File) (n : Int) : Option File :=
  if n < 0 then none
  else if f.isDir then some f
  else
    let n := n.toNat
    if f.bufLen + n ≤ f.bufCap then some f
    else
      let l := f.bufLen
      let tmpLen := l + n
      let k := min tmpLen f.bufLen
      some (f.setBuf ⟨(f.bufData.take f.bufLen).take k ++
        List.replicate (tmpLen - k) 0, l, false⟩)

/-!
### ReadFrom (file.go)

The reader is modelled as a script: a list of responses, each a chunk of
bytes placed at the start of the scratch slice together with a flag saying
whether this `Read` call also returns an error (`io.EOF` — the only error
a scripted reader produces here).  An exhausted script behaves as a reader
returning `(0, io.EOF)`.  A scripted reader writes exactly the returned
bytes and nothing else into the scratch slice, which is the behavior of
ordinary well-behaved readers.
-/

/-- One iteration of the `ReadFrom` loop body: capture the length, grow by
`bytes.MinRead`, expose `tmp = buf[l:cap]` as scratch, receive `n` bytes,
and, when `l != off`, slide them to the offset with
`copy(fil.buf[fil.off:], tmp[:n])` and zero `tmp[n:]` when the read was
short; finally advance the offset and reslice the buffer to the new
length.  Slicing panics are modelled as `none`. -/
def File.readFromIter (f : File) (chunk : List Byte) : Option (File × Nat) :=
  let l := f.bufLen
  let f := f.grow minRead
  if l > f.bufCap then none
  else
    let tmpLen := f.bufCap - l
    let n := min chunk.length tmpLen
    let data1 := f.bufData.take l ++ chunk.take n ++ f.bufData.drop (l + n)
    let data3? : Option (List Byte) :=
      if f.off ≠ (l : Int) then
        if f.off < 0 ∨ f.off > (f.bufLen : Int) then none
        else
          let off := f.off.toNat
          let k := min (f.bufLen - off) n
          let src := (data1.drop l).take n
          let data2 := data1.take off ++ src.take k ++ data1.drop (off + k)
          some (if n < tmpLen then
            data2.take (l + n) ++ List.replicate (data2.length - (l + n)) 0
          else data2)
      else some data1
    match data3? with
    | none => none
    | some data3 =>
      let off' := f.off + (n : Int)
      let l2 := if off' > (l : Int) then off'.toNat else l
      if (l2 : Int) > (f.bufCap : Int) then none
      else some (f.setBuf ⟨data3, l2, f.buf.nilb⟩ |>.setOff off', n)

/-- The `ReadFrom` loop: iterate the body until the reader reports an
error; an exhausted script is a reader that returns `(0, io.EOF)`. -/
def File.readFromLoop (f : File) (rs : List (List Byte × Bool)) :
    Option (File × Nat) :=
  match rs with
  | [] => f.readFromIter []
  | (chunk, isEof) :: rest =>
    match f.readFromIter chunk with
    | none => none
    | some (f', n) =>
      if isEof then some (f', n)
      else
        match f'.readFromLoop rest with
        | none => none
        | some (f'', m) => some (f'', n + m)

/-- `File.ReadFrom` from file.go: rejects directories; in append mode the
offset is first forced to the end; then the loop runs until the reader
errors, and `io.EOF` is converted to success. -/
def File.ReadFrom (f : File) (rs : List (List Byte × Bool)) :
    Option (File × Except GoErr Nat) :=
  if f.isDir then some (f, .error (.pathe "write" f.path .eisdir))
  else
    let f := if f.appendMode then f.setOff (f.bufLen : Int) else f
    match f.readFromLoop rs with
    | none => none
    | some (f', total) => some (f', .ok total)

/-!
### Directory operations (file.go)
-/

/-- Lookup in the entries map: `fil.entries[name]`. -/
def entLookup (es : List (String × File)) (n : String) : Option File :=
  match es with
  | [] => none
  | (k, v) :: rest => if k = n then some v else entLookup rest n

/-- Lexicographic order on character lists by codepoint.  Go compares
strings byte-wise; UTF-8 byte order coincides with codepoint order, so
this is the comparison used by `slices.Sorted` on the key strings. -/
def charsLe : List Char → List Char → Bool
  | [], _ => true
  | _ :: _, [] => false
  | a :: as, b :: bs =>
    if a.toNat < b.toNat then true
    else if b.toNat < a.toNat then false
    else charsLe as bs

/-- Go string comparison `a <= b`. -/
def strLe (a b : String) : Bool := charsLe a.toList b.toList

/-- The sort relation as a decidable proposition. -/
def strLeP (a b : String) : Prop := strLe a b = true

instance : DecidableRel strLeP := fun a b => by
  unfold strLeP; infer_instance

/-- `slices.Sorted(maps.Keys(fil.entries))`: the keys in ascending order. -/
def sortStrings (l : List String) : List String :=
  List.insertionSort strLeP l

/-- `strings.Split(name, "/")` on the character list. -/
def splitSegsAux : List Char → List Char → List String
  | [], acc => [String.mk acc.reverse]
  | c :: cs, acc =>
    if c = '/' then String.mk acc.reverse :: splitSegsAux cs []
    else splitSegsAux cs (c :: acc)

/-- `strings.Split(name, "/")`. -/
def splitSegs (s : String) : List String := splitSegsAux s.toList []

/-- `strings.Contains(name, "/")`. -/
def containsSlash (s : String) : Bool := s.toList.any (fun c => c = '/')

/-- `filepath.Base` restricted to the names occurring here: the empty name
gives `"."`; otherwise the last slash-separated component. -/
def baseName (n : String) : String :=
  if n = "" then "." else (splitSegs n).getLastD n

/-- `File.Name` = `filepath.Base(fi.name)`. -/
def File.goName (f : File) : String := baseName f.meta.name

/-- `File.AddFile` from file.go.  Returns the (possibly updated) directory,
the (possibly updated) child, and the error if any; the error branches
return both arguments unchanged.  Checks in source order: not-a-directory,
already-has-parent, invalid type, name collision; on success the child is
registered under its name with its parent pointer set. -/
def File.AddFile (dir child : File) : File × File × Option GoErr :=
  if dir.isDir = false then
    (dir, child, some (.pathe "open" (joinPath dir.meta.name child.goName) .enotdir))
  else if child.meta.parent.isSome then
    (dir, child, some (.pathe "AddFile" child.path .hasParent))
  else if ¬(child.typeBits = modeDir ∨ child.typeBits = 0) then
    (dir, child, some (.simple .invalidArg))
  else if (entLookup dir.entries child.goName).isSome then
    (dir, child, some (.simple .exist))
  else
    let c := child.setParent (some dir.path)
    (dir.withEntries (dir.entries ++ [(child.goName, c)]), c, none)

/-- `File.ReadDir` from file.go, returning the listed entry names.
Rejects non-directories; computes the sorted key list; `n ≤ 0` is replaced
by the number of remaining entries; a cursor at or past the end yields
`io.EOF`; otherwise the entries from the cursor up to `min(cursor+n, len)`
are listed and the cursor advances. -/
def File.ReadDir (f : File) (n : Int) : File × Except GoErr (List String) :=
  if f.isDir = false then (f, .error (.pathe "ReadDir" f.path .enotdir))
  else
    let names := sortStrings (f.entries.map Prod.fst)
    let cnt := f.entries.length
    let nn : Int := if n ≤ 0 then (cnt : Int) - (f.cursor : Int) else n
    if f.cursor ≥ cnt then (f, .error (.simple .eofK))
    else
      let stop := min cnt (f.cursor + nn.toNat)
      (f.setCursor stop, .ok ((names.drop f.cursor).take (stop - f.cursor)))

/-!
### Path resolution (the `open` function)
-/

/-- `fs.ValidPath`: `"."` is valid; otherwise every slash-separated element
must be non-empty and neither `"."` nor `".."`. -/
def validPath (name : String) : Bool :=
  if name = "." then true
  else (splitSegs name).all fun e => e ≠ "" && e ≠ "." && e ≠ ".."

/-- The recursion of `open` on the segment list of an already validated
path.  The Go function splits off the first segment, resolves it with a
recursive single-segment call (whose not-found error carries just that
segment as the path), and recurses into the rejoined remainder; rejoining
and re-splitting round-trip for slash-free segments, and no segment of a
valid non-`"."` path is `""`, `"."` or `".."`, so the nested validity
checks of the recursive calls always pass. -/
def openSegs : File → List String → Except GoErr File
  | dir, [] => .ok dir
  | dir, p :: rest =>
    match entLookup dir.entries p with
    | none => .error (.pathe "open" p .notExist)
    | some d =>
      match rest with
      | [] => .ok d
      | _ :: _ => openSegs d rest

/-- The `open` function (path resolution): validates the name, resolves
`"."` to the directory itself, and otherwise walks the split segments. -/
def openGo (dir : File) (name : String) : Except GoErr File :=
  if validPath name = false then .error (.pathe "open" name .invalidArg)
  else if name = "." then .ok dir
  else openSegs dir (splitSegs name)

/-- Step-by-step resolution of a segment list by entry lookup (used to
state which prefix of a path resolves). -/
def resolveSeq : File → List String → Option File
  | d, [] => some d
  | d, s :: rest =>
    match entLookup d.entries s with
    | none => none
    | some c => resolveSeq c rest

/-!
### Constructors (file.go)
-/

/-- A `File` constructor functional option. -/
inductive FileOpt where
  | offsetOpt (v : Int)   -- WithFileOffset
  | appendOpt             -- WithFileAppend
  | flagOpt (v : Nat)     -- WithFileFlag
deriving DecidableEq

/-- Application of one functional option. -/
def applyOpt (f : File) (o : FileOpt) : File :=
  match o with
  | .offsetOpt v => f.setOff v
  | .appendOpt => f.withMeta { f.meta with flag := f.meta.flag ||| oAppend }
  | .flagOpt v => f.withMeta { f.meta with flag := v }

/-- Outcome of a constructor: the invalid-name error, the
`panic(ErrOutOfBounds)` fatal abort, or the constructed file. -/
inductive CtorResult where
  | errInvalid
  | panicOOB
  | ok (f : File)

/-- `FileWith` from file.go: rejects names that are not valid single
segments, builds the file with the content slice, size `len(content)` and
mode `0600`, applies the options in order, and panics with
`ErrOutOfBounds` when the resulting offset is negative or beyond the
content length. -/
def fileWith (name : String) (content : Buf) (opts : List FileOpt) : CtorResult :=
  if validPath name = false ∨ containsSlash name = true then .errInvalid
  else
    let f0 : File := .mk ⟨0, content, 0, name, (content.len : Int), 384, none, 0⟩ []
    let f := opts.foldl applyOpt f0
    if f.off < 0 ∨ f.off > (f.bufLen : Int) then .panicOOB
    else .ok f

/-- `NewFile` from file.go: `FileWith` with a fresh empty slice of capacity
`bytes.MinRead`. -/
def newFile (name : String) (opts : List FileOpt) : CtorResult :=
  fileWith name ⟨List.replicate minRead 0, 0, false⟩ opts

/-- `NewDirectory` from file.go: `FileWith(name, nil)`, then size 4096 and
mode `0700 | fs.ModeDir`. -/
def newDirectory (name : String) : CtorResult :=
  match fileWith name nilBuf [] with
  | .ok f => .ok (f.withMeta { f.meta with size := 4096, mode := 448 ||| modeDir })
  | r => r

/-- `NewRoot` from file.go: the nameless root directory. -/
def newRoot : File :=
  .mk ⟨0, nilBuf, 0, "", 4096, 448 ||| modeDir, none, 0⟩ []

/-!
### Concrete fixtures used in the theorems below
-/

/-- The file produced by `NewFile("file")`: empty content, capacity
`bytes.MinRead`, offset 0, mode `0600`. -/
def emptyFile : File :=
  .mk ⟨0, ⟨List.replicate minRead 0, 0, false⟩, 0, "file", 0, 384, none, 0⟩ []

/-- A file holding bytes `[0,1,2]` (capacity 3), as produced by
`FileWith("file", []byte{0,1,2})`. -/
def file012 : File := .mk ⟨0, ⟨[0, 1, 2], 3, false⟩, 0, "file", 3, 384, none, 0⟩ []

/-- A file holding bytes `[1,2,3]` (capacity 3), as produced by
`FileWith("file", []byte{1,2,3})`. -/
def file123 : File := .mk ⟨0, ⟨[1, 2, 3], 3, false⟩, 0, "file", 3, 384, none, 0⟩ []

/-- A file pre-seeded with `[0,1,2,3]` and append mode enabled, as produced
by `FileWith("file", []byte{0,1,2,3}, WithFileAppend)`. -/
def file0123Append : File :=
  .mk ⟨0, ⟨[0, 1, 2, 3], 4, false⟩, oAppend, "file", 4, 384, none, 0⟩ []

/-- The ten-byte payload used to exhibit a partial write. -/
def tenBytes : List Byte := [1, 2, 3, 4, 5, 6, 7, 8, 9, 10]

/-- An empty directory named `dir`, as produced by `NewDirectory("dir")`. -/
def emptyDir : File := .mk ⟨0, nilBuf, 0, "dir", 4096, 448 ||| modeDir, none, 0⟩ []

/-- An empty directory named `dir0`. -/
def dirZero : File := .mk ⟨0, nilBuf, 0, "dir0", 4096, 448 ||| modeDir, none, 0⟩ []

/-- An empty directory named `dir1`. -/
def dirOne : File := .mk ⟨0, nilBuf, 0, "dir1", 4096, 448 ||| modeDir, none, 0⟩ []

/-- A fresh empty file node with the given name (as from `NewFile`, with the
capacity elided since directory claims never touch the buffer). -/
def fileNamed (n : String) : File := .mk ⟨0, nilBuf, 0, n, 0, 384, none, 0⟩ []

/-- `emptyDir` populated with children named `file2`, `file0`, `file1`,
attached in that insertion order via `AddFile`. -/
def dirPopulated : File :=
  (((emptyDir.AddFile (fileNamed "file2")).1.AddFile
      (fileNamed "file0")).1.AddFile (fileNamed "file1")).1

/-- The child `file` after being attached to `dir0`: its parent link is set. -/
def attachedChild : File := (dirZero.AddFile (fileNamed "file")).2.1

/-- An empty directory node with the given name. -/
def dirNamed (n : String) : File :=
  .mk ⟨0, nilBuf, 0, n, 4096, 448 ||| modeDir, none, 0⟩ []

/-- A root directory containing a single empty subdirectory `sub`. -/
def rootWithSub : File := (newRoot.AddFile (dirNamed "sub")).1

/-- The `sub` subdirectory as attached under the root. -/
def subAttached : File := (newRoot.AddFile (dirNamed "sub")).2.1

end Memfs

set_option maxRecDepth 100000

namespace Memfs

/-!
### Projection lemmas
-/

@[simp] theorem meta_mk (m : Meta) (es : List (String × File)) :
    (File.mk m es).meta = m := rfl

@[simp] theorem entries_mk (m : Meta) (es : List (String × File)) :
    (File.mk m es).entries = es := rfl

@[simp] theorem off_setOff (f : File) (o : Int) : (f.setOff o).off = o := rfl

@[simp] theorem buf_setOff (f : File) (o : Int) : (f.setOff o).buf = f.buf := rfl

@[simp] theorem bufLen_setOff (f : File) (o : Int) : (f.setOff o).bufLen = f.bufLen := rfl

@[simp] theorem bufCap_setOff (f : File) (o : Int) : (f.setOff o).bufCap = f.bufCap := rfl

@[simp] theorem bufData_setOff (f : File) (o : Int) : (f.setOff o).bufData = f.bufData := rfl

@[simp] theorem content_setOff (f : File) (o : Int) : (f.setOff o).content = f.content := rfl

@[simp] theorem isDir_setOff (f : File) (o : Int) : (f.setOff o).isDir = f.isDir := rfl

@[simp] theorem appendMode_setOff (f : File) (o : Int) :
    (f.setOff o).appendMode = f.appendMode := rfl

@[simp] theorem off_setBuf (f : File) (b : Buf) : (f.setBuf b).off = f.off := rfl

@[simp] theorem buf_setBuf (f : File) (b : Buf) : (f.setBuf b).buf = b := rfl

@[simp] theorem bufLen_setBuf (f : File) (b : Buf) : (f.setBuf b).bufLen = b.len := rfl

@[simp] theorem bufCap_setBuf (f : File) (b : Buf) : (f.setBuf b).bufCap = b.cap := rfl

@[simp] theorem bufData_setBuf (f : File) (b : Buf) : (f.setBuf b).bufData = b.data := rfl

@[simp] theorem off_setBufLen (f : File) (l : Nat) : (f.setBufLen l).off = f.off := rfl

@[simp] theorem bufLen_setBufLen (f : File) (l : Nat) : (f.setBufLen l).bufLen = l := rfl

@[simp] theorem bufCap_setBufLen (f : File) (l : Nat) : (f.setBufLen l).bufCap = f.bufCap := rfl

@[simp] theorem bufData_setBufLen (f : File) (l : Nat) :
    (f.setBufLen l).bufData = f.bufData := rfl

@[simp] theorem nilb_setBufLen (f : File) (l : Nat) :
    (f.setBufLen l).buf.nilb = f.buf.nilb := rfl

@[simp] theorem cap_mk_buf (d : List Byte) (l : Nat) (b : Bool) :
    (Buf.mk d l b).cap = d.length := rfl

@[simp] theorem content_mk_buf (d : List Byte) (l : Nat) (b : Bool) :
    (Buf.mk d l b).content = d.take l := rfl

/-!
### Claim theorems
-/

/-- C1: for the file produced by `NewFile` (an empty file, no options),
writing `[0,1,2,3]`, seeking 2 bytes before the end, writing `[4,5]`,
seeking to the start, and reading until end-of-data yields exactly the
bytes `[0,1,4,5]`. -/
theorem claim1_write_seek_read_round_trip :
    newFile "file" [] = .ok emptyFile ∧
    ∃ fa fb fc fd fe,
      emptyFile.Write [0, 1, 2, 3] = some (fa, .ok 4) ∧
      fa.Seek (-2) 2 = (fb, .ok 2) ∧
      fb.Write [4, 5] = some (fc, .ok 2) ∧
      fc.Seek 0 0 = (fd, .ok 0) ∧
      fd.Read 100 = some (fe, .ok [0, 1, 4, 5]) ∧
      fe.Read 100 = some (fe, .error (.simple .eofK)) :=
  ⟨rfl, _, _, _, _, _, rfl, rfl, rfl, rfl, rfl, rfl⟩

/-- C2 (code bug): `Write` is not total-or-error.  On the non-directory
file `[0,1,2]` (capacity 3), after `Seek(8, start)` — a reachable cursor —
writing a ten-byte payload returns count 8 with no error: a partial write,
contradicting the claim (and Write's own documentation) that the returned
count always equals `len(p)`. -/
theorem claim2_partial_write_after_seek_beyond_end :
    (file012.Seek 8 0).2 = .ok 8 ∧
    ((file012.Seek 8 0).1.Write tenBytes).map (fun x => (x.2, x.1.bufLen)) =
      some (.ok 8, 16) ∧
    tenBytes.length = 10 ∧ (8 : Nat) ≠ 10 :=
  ⟨rfl, rfl, rfl, by decide⟩

/-- C3 (code bug): the zeros-beyond-length invariant is not preserved by
`ReadFrom`.  Starting from the file `[1,2,3]` with cursor 0, a single
well-behaved reader response of one byte `9` together with `io.EOF` leaves
the final state with length 3, capacity 518, and the nonzero staging
byte `9` at index 3 — a byte between the logical length and the capacity
that is not zero. -/
theorem claim3_readFrom_leaves_nonzero_byte_beyond_length :
    ∃ f', file123.ReadFrom [([9], true)] = some (f', .ok 1) ∧
      f'.bufLen = 3 ∧ f'.bufCap = 518 ∧
      f'.bufData.get? 3 = some 9 ∧ (9 : Byte) ≠ 0 :=
  ⟨_, rfl, rfl, rfl, rfl, by decide⟩

/-- C5 counterexample: `ReadDir(n)` with `n ≤ 0` on a directory with zero
remaining entries (here: a fresh empty directory) does not return an
empty listing with no error — it fails with `io.EOF`. -/
theorem claim5_empty_dir_eof_counterexample :
    (emptyDir.ReadDir (-1)).2 = .error (.simple .eofK) ∧
    (Except.error (.simple .eofK) : Except GoErr (List String)) ≠ .ok [] :=
  ⟨rfl, fun h => Except.noConfusion h⟩

/-- C7 counterexample: `WriteAt([3,4,5], 1000)` on the file `[0,1,2]`
(capacity 3) grows the capacity to `1006 = 2*3 + (1000 + 3 - 3)`, not to
`off + len(p) = 1003`: storage is not grown to fit exactly, and the
doubling allocation `cap*2 + n` of `grow` is exactly what runs (the
repository's own test asserts capacity 1006 here). -/
theorem claim7_capacity_not_exact_counterexample :
    (file012.WriteAt [3, 4, 5] 1000).map (fun x => (x.2, x.1.bufLen, x.1.bufCap)) =
      some (.ok 3, 1003, 1006) ∧ (1006 : Nat) ≠ 1000 + 3 :=
  ⟨rfl, by decide⟩

/-- C8 counterexample: resolving `"a/b"` in an empty root fails at the
first segment, and the error's path context is `"a"` — the missing
segment alone — not the remaining unresolved sub-path `"a/b"` (the
missing segment together with the segment after it). -/
theorem claim8_error_path_not_remaining_subpath :
    openGo newRoot "a/b" = .error (.pathe "open" "a" .notExist) ∧
    splitSegs "a/b" = ["a", "b"] ∧ ("a" : String) ≠ "a/b" :=
  ⟨rfl, rfl, by decide⟩

@[simp] theorem nilb_setOff (f : File) (o : Int) :
    (f.setOff o).buf.nilb = f.buf.nilb := rfl

@[simp] theorem appendMode_setBuf (f : File) (b : Buf) :
    (f.setBuf b).appendMode = f.appendMode := rfl

@[simp] theorem appendMode_setBufLen (f : File) (l : Nat) :
    (f.setBufLen l).appendMode = f.appendMode := rfl

@[simp] theorem isDir_setBuf (f : File) (b : Buf) :
    (f.setBuf b).isDir = f.isDir := rfl

@[simp] theorem isDir_setBufLen (f : File) (l : Nat) :
    (f.setBufLen l).isDir = f.isDir := rfl

/-- What `grow` guarantees when the offset sits exactly at the length (the
situation of an append-mode write): the offset is kept, the new length
covers `len + n`, the new length still fits the new capacity, and the
visible content bytes are preserved. -/
theorem grow_at_end (f : File) (n : Nat) (hoff : f.off = (f.bufLen : Int))
    (hwf : f.buf.Wf) :
    (f.grow n).off = f.off ∧
    f.bufLen + n ≤ (f.grow n).bufLen ∧
    (f.grow n).bufLen ≤ (f.grow n).bufCap ∧
    (f.grow n).bufData.take f.bufLen = f.content := by
  have hwf1 : f.bufLen ≤ f.bufCap := hwf.1
  have hwf2 : f.buf.nilb = true → f.bufData = [] ∧ f.bufLen = 0 := hwf.2
  unfold File.grow
  by_cases hA : (n : Int) ≤ (f.bufLen : Int) - f.off
  · rw [if_pos hA]
    exact ⟨rfl, by omega, hwf1, rfl⟩
  · rw [if_neg hA]
    by_cases hB : (n : Int) ≤ (f.bufCap : Int) - f.off
    · rw [if_pos hB]
      refine ⟨rfl, ?_, ?_, rfl⟩
      · simp only [bufLen_setBufLen]
        omega
      · simp only [bufLen_setBufLen, bufCap_setBufLen]
        omega
    · rw [if_neg hB]
      by_cases hN : (f.buf.nilb && decide (n ≤ smallBufferSize)) = true
      · rw [if_pos hN]
        rw [Bool.and_eq_true] at hN
        obtain ⟨hdata, hlen0⟩ := hwf2 hN.1
        have hn64 : n ≤ smallBufferSize := of_decide_eq_true hN.2
        refine ⟨rfl, ?_, ?_, ?_⟩
        · simp only [bufLen_setBuf, hlen0]
          omega
        · simp only [bufLen_setBuf, bufCap_setBuf, cap_mk_buf,
            List.length_replicate]
          exact hn64
        · rw [show (f.setBuf ⟨List.replicate smallBufferSize 0, n, false⟩).bufData
              = List.replicate smallBufferSize (0 : Byte) from rfl,
            hlen0, List.take_zero, File.content, Buf.content,
            show f.meta.buf.len = f.bufLen from rfl, hlen0, List.take_zero]
      · rw [if_neg hN]
        have hk : min (2 * f.bufCap + n) f.bufLen = f.bufLen := by omega
        have hdlen : f.bufData.length = f.bufCap := rfl
        have htl : (f.bufData.take f.bufLen).length = f.bufLen := by
          rw [List.length_take]
          omega
        refine ⟨rfl, ?_, ?_, ?_⟩
        · simp only [bufLen_setBuf, hk]
          omega
        · simp only [bufLen_setBuf, bufCap_setBuf, cap_mk_buf, hk,
            List.length_append, List.length_take, List.length_replicate, htl]
          omega
        · simp only [bufData_setBuf, hk, List.take_take, Nat.min_self]
          rw [List.take_append_eq_append_take, List.take_of_length_le (by omega),
            htl, Nat.sub_self, List.take_zero, List.append_nil]
          rfl

/-- `write` in append mode: the payload lands entirely at the end of the
content, the returned count is the full payload length, and the offset
ends at the new end of content. -/
theorem writeInternal_append (f : File) (p : List Byte)
    (ha : f.appendMode = true) (hwf : f.buf.Wf) :
    ∃ f', f.writeInternal p = some (f', p.length) ∧
      f'.content = f.content ++ p ∧
      f'.off = ((f.bufLen + p.length : Nat) : Int) := by
  obtain ⟨ho, hlen, hwfg, htake⟩ :=
    grow_at_end (f.setOff (f.bufLen : Int)) p.length rfl hwf
  simp only [bufLen_setOff, off_setOff, bufData_setOff, content_setOff,
    bufCap_setOff] at ho hlen hwfg htake
  simp only [File.writeInternal, ha, if_true]
  set g := (f.setOff (f.bufLen : Int)).grow p.length with hg
  have hnopanic : ¬(g.off < 0 ∨ g.off > (g.bufLen : Int)) := by
    rw [ho]
    omega
  rw [if_neg hnopanic]
  have hofft : g.off.toNat = f.bufLen := by omega
  rw [hofft]
  simp only [bufLen_setOff]
  have hn' : min (g.bufLen - f.bufLen) p.length = p.length := by omega
  rw [hn', List.take_length]
  have hmax : max f.bufLen (f.bufLen + p.length) = f.bufLen + p.length := by
    omega
  rw [hmax]
  have htakelen : (g.bufData.take f.bufLen).length = f.bufLen := by
    rw [htake, File.content, Buf.content, List.length_take]
    have h1 : f.meta.buf.len ≤ f.meta.buf.data.length := hwf.1
    have h2 : f.meta.buf.len = f.bufLen := rfl
    omega
  refine ⟨_, rfl, ?_, ?_⟩
  · rw [show ∀ (h : File) (b : Buf) (o : Int),
        ((h.setBuf b).setOff o).content = b.data.take b.len
      from fun _ _ _ => rfl]
    rw [List.take_append_eq_append_take,
      List.take_of_length_le (l := g.bufData.take f.bufLen ++ p) (by
        rw [List.length_append, htakelen]),
      List.length_append, htakelen, Nat.sub_self,
      List.take_zero, List.append_nil, htake]
  · rw [show ∀ (h : File) (b : Buf) (o : Int),
        ((h.setBuf b).setOff o).off = o from fun _ _ _ => rfl]

/-- `write` when the cursor is a plain index `o` and the payload already
fits below the buffer length: the payload is copied in full at `o` and the
offset advances past it. -/
theorem writeInternal_fits (t : File) (p : List Byte) (o : Nat)
    (ha : t.appendMode = false) (hoff : t.off = ((o : Nat) : Int))
    (hfit : o + p.length ≤ t.bufLen) :
    t.writeInternal p =
      some ((t.setBuf ⟨t.bufData.take o ++ p ++ t.bufData.drop (o + p.length),
        max t.bufLen (o + p.length), t.buf.nilb⟩).setOff ((o + p.length : Nat) : Int),
        p.length) := by
  simp only [File.writeInternal, ha, Bool.false_eq_true, if_false]
  have hg : t.grow p.length = t := by
    unfold File.grow
    rw [if_pos (by rw [hoff]; omega)]
  rw [hg, if_neg (by rw [hoff]; omega), hoff, Int.toNat_natCast,
    show min (t.bufLen - o) p.length = p.length from by omega,
    List.take_length]

/-- C4: for every well-formed file node in append mode, `Write` writes at
the end of the content regardless of the current cursor — the new content
is the old content with the payload appended and the count is the full
payload length; concretely, a file pre-seeded with `[0,1,2,3]` in append
mode, after `Seek(-2, end)`, `Write([4,5])` and `Seek(0, start)`, reads in
full as `[0,1,2,3,4,5]`. -/
theorem claim4_append_mode_writes_at_end :
    (∀ (f : File) (p : List Byte), f.isDir = false → f.appendMode = true →
      f.buf.Wf →
      ∃ f', f.Write p = some (f', .ok p.length) ∧
        f'.content = f.content ++ p) ∧
    (∃ fa fb fc fd, file0123Append.Seek (-2) 2 = (fa, .ok 2) ∧
      fa.Write [4, 5] = some (fb, .ok 2) ∧
      fb.Seek 0 0 = (fc, .ok 0) ∧
      fc.Read 100 = some (fd, .ok [0, 1, 2, 3, 4, 5]) ∧
      fd.Read 100 = some (fd, .error (.simple .eofK))) := by
  constructor
  · intro f p hd ha hwf
    obtain ⟨f', h1, h2, _⟩ := writeInternal_append f p ha hwf
    refine ⟨f', ?_, h2⟩
    simp only [File.Write, hd, Bool.false_eq_true, if_false, h1]
  · exact ⟨_, _, _, _, rfl, rfl, rfl, rfl, rfl⟩

/-- C4 witness: the claim's concrete file after the seek, written through
the general statement. -/
theorem claim4_witness :
    (file0123Append.Seek (-2) 2).1.isDir = false ∧
    (file0123Append.Seek (-2) 2).1.appendMode = true ∧
    (file0123Append.Seek (-2) 2).1.buf.Wf ∧
    ∃ f', (file0123Append.Seek (-2) 2).1.Write [4, 5] = some (f', .ok 2) ∧
      f'.content = (file0123Append.Seek (-2) 2).1.content ++ [4, 5] :=
  ⟨rfl, rfl, ⟨by decide, by decide⟩,
    claim4_append_mode_writes_at_end.1 (file0123Append.Seek (-2) 2).1 [4, 5]
      rfl rfl ⟨by decide, by decide⟩⟩

/-- C7 (amended): for every well-formed non-append file node with a
non-nil buffer, `WriteAt(p, off)` with `off + len(p)` beyond the current
capacity zero-fills the gap between the old length and `off` and grows the
storage through the same `grow` allocation used by sequential writes: one
allocation of exactly `2*cap + (off + len(p) - len)` bytes — so the new
capacity is `2*cap + off + len(p) - len`, not `off + len(p)` — after
which the length is exactly `off + len(p)`, the cursor is unchanged, and
the full payload is written at `off`. -/
theorem claim7_writeAt_growth_amended (f : File) (p : List Byte) (off : Nat)
    (hd : f.isDir = false) (ha : f.appendMode = false) (hwf : f.buf.Wf)
    (hnil : f.buf.nilb = false) (hbig : f.bufCap < off + p.length) :
    ∃ f', f.WriteAt p (off : Int) = some (f', .ok p.length) ∧
      f'.bufLen = off + p.length ∧
      f'.bufCap = 2 * f.bufCap + (off + p.length) - f.bufLen ∧
      f'.off = f.off ∧
      (f.bufLen ≤ off → f'.content =
        f.content ++ List.replicate (off - f.bufLen) 0 ++ p) := by
  have hdlen : f.bufData.length = f.bufCap := rfl
  have hwf1 : f.bufLen ≤ f.bufCap := hwf.1
  have hng : (((off : Nat) : Int) + ((p.length : Nat) : Int) -
      ((f.bufLen : Nat) : Int)).toNat = off + p.length - f.bufLen := by
    omega
  have hmin : min (2 * f.bufCap + (off + p.length - f.bufLen)) f.bufLen
      = f.bufLen := by omega
  have hgrow : (f.setOff (f.bufCap : Int)).grow (off + p.length - f.bufLen) =
      (f.setOff (f.bufCap : Int)).setBuf
        ⟨f.bufData.take f.bufLen ++
          List.replicate (2 * f.bufCap + (off + p.length - f.bufLen) - f.bufLen) 0,
          2 * f.bufCap + (off + p.length - f.bufLen), false⟩ := by
    unfold File.grow
    rw [if_neg (by simp only [bufLen_setOff, off_setOff]; omega),
      if_neg (by simp only [bufCap_setOff, off_setOff]; omega),
      if_neg (by
        simp only [nilb_setOff, hnil, Bool.false_and]
        exact Bool.false_ne_true)]
    simp only [bufCap_setOff, bufLen_setOff, bufData_setOff, hmin,
      List.take_take, Nat.min_self]
  simp only [File.WriteAt, hd, ha, Bool.false_eq_true, if_false]
  rw [if_pos (show ((off : Nat) : Int) + ((p.length : Nat) : Int) >
      ((f.bufCap : Nat) : Int) from by omega)]
  rw [hng, hgrow]
  rw [if_neg (by
    simp only [bufCap_setBuf, cap_mk_buf, List.length_append,
      List.length_take, List.length_replicate]
    omega)]
  rw [show (((off : Nat) : Int) + ((p.length : Nat) : Int)).toNat =
      off + p.length from by omega]
  simp only []
  rw [writeInternal_fits _ p off]
  rotate_left
  · exact ha
  · rfl
  · simp only [bufLen_setOff, bufLen_setBufLen]
    omega
  refine ⟨_, rfl, ?_, ?_, rfl, ?_⟩
  · simp only [bufLen_setOff, bufLen_setBuf, bufLen_setBufLen]
    omega
  · simp only [bufCap_setOff, bufCap_setBuf, cap_mk_buf, bufData_setOff,
      bufData_setBufLen, bufData_setBuf, List.length_append,
      List.length_take, List.length_replicate, List.length_drop]
    omega
  · intro hlo
    rw [show ∀ (h : File) (b : Buf) (o1 o2 : Int),
        ((((h.setBuf b).setOff o1)).setOff o2).content = b.data.take b.len
      from fun _ _ _ _ => rfl]
    simp only [bufData_setOff, bufData_setBufLen, bufData_setBuf,
      bufLen_setOff, bufLen_setBufLen]
    rw [show max (off + p.length) (off + p.length) = off + p.length from
      Nat.max_self _]
    have hAlen : (f.bufData.take f.bufLen).length = f.bufLen := by
      rw [List.length_take]
      omega
    have hXlen : ((f.bufData.take f.bufLen ++
        List.replicate (2 * f.bufCap + (off + p.length - f.bufLen) -
          f.bufLen) 0).take off).length = off := by
      rw [List.length_take, List.length_append, hAlen, List.length_replicate]
      omega
    rw [List.take_append_eq_append_take,
      List.take_of_length_le (by rw [List.length_append, hXlen]),
      List.length_append, hXlen, Nat.sub_self,
      List.take_zero, List.append_nil]
    rw [List.take_append_eq_append_take, List.take_of_length_le (by omega),
      hAlen, List.take_replicate,
      show min (off - f.bufLen)
        (2 * f.bufCap + (off + p.length - f.bufLen) - f.bufLen) =
          off - f.bufLen from by omega]
    rfl

/-- C7 witness: the counterexample file `[0,1,2]` written through the
general statement at offset 1000 with a three-byte payload. -/
theorem claim7_witness :
    file012.isDir = false ∧ file012.appendMode = false ∧ file012.buf.Wf ∧
    file012.buf.nilb = false ∧ file012.bufCap < 1000 + 3 ∧
    ∃ f', file012.WriteAt [3, 4, 5] ((1000 : Nat) : Int) = some (f', .ok 3) ∧
      f'.bufLen = 1000 + 3 ∧
      f'.bufCap = 2 * file012.bufCap + (1000 + 3) - file012.bufLen ∧
      f'.off = file012.off ∧
      (file012.bufLen ≤ 1000 → f'.content =
        file012.content ++ List.replicate (1000 - file012.bufLen) 0 ++ [3, 4, 5]) :=
  ⟨rfl, rfl, ⟨by decide, by decide⟩, rfl, by decide,
    claim7_writeAt_growth_amended file012 [3, 4, 5] 1000 rfl rfl
      ⟨by decide, by decide⟩ rfl (by decide)⟩

/-- Characterization of the lexicographic comparison on a cons pair. -/
theorem charsLe_cons_iff (a b : Char) (as bs : List Char) :
    charsLe (a :: as) (b :: bs) = true ↔
      (a.toNat < b.toNat ∨ (a.toNat = b.toNat ∧ charsLe as bs = true)) := by
  simp only [charsLe]
  by_cases h1 : a.toNat < b.toNat
  · simp [h1]
  · by_cases h2 : b.toNat < a.toNat
    · simp [h1, h2]
      omega
    · have he : a.toNat = b.toNat := by omega
      simp [h1, h2, he]

/-- The comparison is total. -/
theorem charsLe_total (as : List Char) :
    ∀ bs, charsLe as bs = true ∨ charsLe bs as = true := by
  induction as with
  | nil => intro bs; exact Or.inl rfl
  | cons a as ih =>
    intro bs
    cases bs with
    | nil => exact Or.inr rfl
    | cons b bs =>
      rcases Nat.lt_trichotomy a.toNat b.toNat with h | h | h
      · exact Or.inl ((charsLe_cons_iff a b as bs).2 (Or.inl h))
      · rcases ih bs with h' | h'
        · exact Or.inl ((charsLe_cons_iff a b as bs).2 (Or.inr ⟨h, h'⟩))
        · exact Or.inr ((charsLe_cons_iff b a bs as).2 (Or.inr ⟨h.symm, h'⟩))
      · exact Or.inr ((charsLe_cons_iff b a bs as).2 (Or.inl h))

/-- The comparison is transitive. -/
theorem charsLe_trans (as : List Char) :
    ∀ bs cs, charsLe as bs = true → charsLe bs cs = true → charsLe as cs = true := by
  induction as with
  | nil => intro bs cs _ _; rfl
  | cons a as ih =>
    intro bs cs h1 h2
    cases bs with
    | nil => simp [charsLe] at h1
    | cons b bs =>
      cases cs with
      | nil => simp [charsLe] at h2
      | cons c cs =>
        rw [charsLe_cons_iff] at h1 h2 ⊢
        rcases h1 with h1 | ⟨h1e, h1r⟩
        · rcases h2 with h2 | ⟨h2e, _⟩
          · exact Or.inl (Nat.lt_trans h1 h2)
          · exact Or.inl (by omega)
        · rcases h2 with h2 | ⟨h2e, h2r⟩
          · exact Or.inl (by omega)
          · exact Or.inr ⟨by omega, ih bs cs h1r h2r⟩

instance : IsTotal String strLeP :=
  ⟨fun a b => charsLe_total a.toList b.toList⟩

instance : IsTrans String strLeP :=
  ⟨fun a b c h1 h2 => charsLe_trans a.toList b.toList c.toList h1 h2⟩

/-- C5 (amended): for every directory, `ReadDir(n)` with `n ≤ 0` and at
least one entry remaining returns, with no error, all entries not yet
yielded by the cursor, in name-sorted order (the output is a sorted
permutation of the keys, so it is independent of insertion order) and
advances the cursor to the end; with zero entries remaining — including
an empty directory — it signals end-of-data with `io.EOF` and no entries;
in particular a directory populated with `file2`, `file0`, `file1` in
that insertion order lists as `file0`, `file1`, `file2`. -/
theorem claim5_sorted_listing_amended :
    (∀ (f : File) (n : Int), f.isDir = true → n ≤ 0 →
      f.cursor < f.entries.length →
      f.ReadDir n = (f.setCursor f.entries.length,
        .ok ((sortStrings (f.entries.map Prod.fst)).drop f.cursor)) ∧
      (sortStrings (f.entries.map Prod.fst)).Perm (f.entries.map Prod.fst) ∧
      List.Sorted strLeP (sortStrings (f.entries.map Prod.fst))) ∧
    (∀ (f : File) (n : Int), f.isDir = true → n ≤ 0 →
      f.entries.length ≤ f.cursor →
      f.ReadDir n = (f, .error (.simple .eofK))) ∧
    (dirPopulated.ReadDir (-1)).2 = .ok ["file0", "file1", "file2"] := by
  refine ⟨?_, ?_, rfl⟩
  · intro f n hd hn hcur
    refine ⟨?_, List.perm_insertionSort _ _, List.sorted_insertionSort _ _⟩
    have hlen : (sortStrings (f.entries.map Prod.fst)).length = f.entries.length := by
      rw [sortStrings, List.length_insertionSort, List.length_map]
    have htn : ((f.entries.length : Int) - (f.cursor : Int)).toNat =
        f.entries.length - f.cursor := by omega
    have hstop : min f.entries.length (f.cursor + (f.entries.length - f.cursor)) =
        f.entries.length := by omega
    have h1 : f.ReadDir n =
        (f.setCursor (min f.entries.length (f.cursor + (f.entries.length - f.cursor))),
          .ok (((sortStrings (f.entries.map Prod.fst)).drop f.cursor).take
            (min f.entries.length (f.cursor + (f.entries.length - f.cursor)) -
              f.cursor))) := by
      simp only [File.ReadDir, hd, Bool.true_eq_false, if_false, hn, if_true, htn]
      rw [if_neg (by omega)]
    rw [h1, hstop]
    have ht : ((sortStrings (f.entries.map Prod.fst)).drop f.cursor).take
        (f.entries.length - f.cursor) =
          (sortStrings (f.entries.map Prod.fst)).drop f.cursor := by
      apply List.take_of_length_le
      rw [List.length_drop, hlen]
    rw [ht]
  · intro f n hd hn hcur
    simp only [File.ReadDir, hd, Bool.true_eq_false, if_false]
    rw [if_pos hcur]

/-- C5 witness: the populated directory has a remaining entry, and
`ReadDir(-1)` lists all of them in sorted order. -/
theorem claim5_witness :
    dirPopulated.isDir = true ∧ (-1 : Int) ≤ 0 ∧
    dirPopulated.cursor < dirPopulated.entries.length ∧
    dirPopulated.ReadDir (-1) = (dirPopulated.setCursor dirPopulated.entries.length,
      .ok ((sortStrings (dirPopulated.entries.map Prod.fst)).drop dirPopulated.cursor)) :=
  ⟨rfl, by decide, by decide,
    (claim5_sorted_listing_amended.1 dirPopulated (-1) rfl (by decide) (by decide)).1⟩

/-- C8 (amended): when resolution of a multi-segment path first fails at
some segment — a prefix of segments resolves and the next segment is
missing — the not-found error's path context is the name of that missing
segment alone, regardless of the segments after it, and in particular not
the full original path. -/
theorem claim8_open_error_path_amended (root d : File) (pre rest : List String)
    (m : String) (hres : resolveSeq root pre = some d)
    (hmiss : entLookup d.entries m = none) :
    openSegs root (pre ++ m :: rest) = .error (.pathe "open" m .notExist) := by
  induction pre generalizing root with
  | nil =>
    simp only [resolveSeq, Option.some.injEq] at hres
    subst hres
    simp [openSegs, hmiss]
  | cons s pre' ih =>
    cases hl : entLookup root.entries s with
    | none => simp [resolveSeq, hl] at hres
    | some c =>
      have hres' : resolveSeq c pre' = some d := by
        simpa [resolveSeq, hl] using hres
      have hgoal := ih c hres'
      cases pre' with
      | nil => simpa [openSegs, hl] using hgoal
      | cons a t => simpa [openSegs, hl] using hgoal

/-- C8 witness: in a root containing only the empty directory `sub`, the
path `sub/missing/x` fails with path context `missing`. -/
theorem claim8_witness :
    resolveSeq rootWithSub ["sub"] = some subAttached ∧
    entLookup subAttached.entries "missing" = none ∧
    openSegs rootWithSub (["sub"] ++ "missing" :: ["x"]) =
      .error (.pathe "open" "missing" .notExist) :=
  ⟨rfl, rfl,
    claim8_open_error_path_amended rootWithSub subAttached ["sub"] ["x"]
      "missing" rfl rfl⟩

/-- C6: attaching a node that already has a parent to any directory fails
with the already-has-parent error and changes nothing: the error branch
returns the directory, the child (with its original parent link, entries
and content), and the `AddFile`/`ErrHasParent` path error, before any
mutation; hence a node's parent link, once set, is never replaced. -/
theorem claim6_single_parent_invariant (d c : File) (hd : d.isDir = true)
    (hp : c.meta.parent.isSome = true) :
    d.AddFile c = (d, c, some (.pathe "AddFile" c.path .hasParent)) := by
  simp [File.AddFile, hd, hp]

/-- C6 witness: a file attached to `dir0` cannot be attached to `dir1`. -/
theorem claim6_witness :
    dirOne.isDir = true ∧ attachedChild.meta.parent.isSome = true ∧
    dirOne.AddFile attachedChild =
      (dirOne, attachedChild, some (.pathe "AddFile" attachedChild.path .hasParent)) :=
  ⟨rfl, rfl, claim6_single_parent_invariant dirOne attachedChild rfl rfl⟩

/-- C10: for every non-directory file and every offset, `Seek` with a
whence value other than 0, 1 or 2 succeeds: the computed offset stays at
its zero value, so the cursor is set to 0 and `(0, nil)` is returned,
the offset argument being ignored. -/
theorem claim10_seek_unknown_whence (f : File) (offset whence : Int)
    (h : f.isDir = false) (h0 : whence ≠ 0) (h1 : whence ≠ 1) (h2 : whence ≠ 2) :
    f.Seek offset whence = (f.setOff 0, .ok 0) := by
  simp [File.Seek, h, h0, h1, h2]

/-- C10 witness: `Seek(5, 3)` on a fresh file returns `(0, nil)` and sets
the cursor to 0. -/
theorem claim10_witness :
    emptyFile.isDir = false ∧ (3 : Int) ≠ 0 ∧ (3 : Int) ≠ 1 ∧ (3 : Int) ≠ 2 ∧
    emptyFile.Seek 5 3 = (emptyFile.setOff 0, .ok 0) :=
  ⟨rfl, by decide, by decide, by decide,
    claim10_seek_unknown_whence emptyFile 5 3 rfl (by decide) (by decide) (by decide)⟩

/-- C9: for every valid single-segment name, construction with the offset
option panics with `ErrOutOfBounds` exactly when the offset is negative
or beyond the initial content length, and otherwise returns a file whose
cursor equals the supplied offset; `NewFile` delegates to `FileWith` with
a fresh empty buffer of capacity `bytes.MinRead`. -/
theorem claim9_ctor_offset_panic_iff (name : String) (content : Buf) (v : Int)
    (hv : validPath name = true) (hs : containsSlash name = false) :
    (fileWith name content [.offsetOpt v] = .panicOOB ↔
      v < 0 ∨ v > (content.len : Int)) ∧
    (¬(v < 0 ∨ v > (content.len : Int)) →
      ∃ f, fileWith name content [.offsetOpt v] = .ok f ∧ f.off = v) ∧
    (∀ opts, newFile name opts =
      fileWith name ⟨List.replicate minRead 0, 0, false⟩ opts) := by
  have key : fileWith name content [.offsetOpt v] =
      if v < 0 ∨ v > (content.len : Int) then .panicOOB
      else .ok (.mk ⟨v, content, 0, name, (content.len : Int), 384, none, 0⟩ []) := by
    simp only [fileWith]
    rw [hv, hs]
    simp [applyOpt, File.setOff, File.off, File.withMeta, File.meta, File.bufLen]
  refine ⟨?_, ?_, fun opts => rfl⟩
  · rw [key]
    by_cases hb : v < 0 ∨ v > (content.len : Int)
    · simp [hb]
    · simp [hb]
  · intro hb
    rw [key, if_neg hb]
    exact ⟨_, rfl, rfl⟩

/-- C9 witness: name `file`, content of length 2, offset 1 — no panic and
the cursor is 1; offset 5 would exceed the length. -/
theorem claim9_witness :
    validPath "file" = true ∧ containsSlash "file" = false ∧
    ((fileWith "file" ⟨[7, 7], 2, false⟩ [.offsetOpt 1] = .panicOOB ↔
      (1 : Int) < 0 ∨ (1 : Int) > ((2 : Nat) : Int)) ∧
    (¬((1 : Int) < 0 ∨ (1 : Int) > ((2 : Nat) : Int)) →
      ∃ f, fileWith "file" ⟨[7, 7], 2, false⟩ [.offsetOpt 1] = .ok f ∧ f.off = 1) ∧
    (∀ opts, newFile "file" opts =
      fileWith "file" ⟨List.replicate minRead 0, 0, false⟩ opts)) :=
  ⟨rfl, rfl, claim9_ctor_offset_panic_iff "file" ⟨[7, 7], 2, false⟩ 1 rfl rfl⟩

end Memfs
